import Mathlib

/-!
Verification of the order filtering and summarization engine of a
market-data aggregation layer (a Warframe.Market MCP server).

The definitions below are a shallow embedding of the TypeScript source:
`src/tools/get_orders.ts` (order filter, side splitter, midpoint
estimator, snapshot summarizer), `src/tools/best_flips.ts` (multi-item
flip ranker) and the validation/propagation behavior around the remote
fetch in `src/utils/http.ts`.  JavaScript numbers are modelled as `Rat`
(the prices are exact, division is exact, and there is no NaN), absent
JSON fields as `Option`, thrown errors as `Except.error`, and the remote
order source as an explicit input (an `Except` value, or an oracle
function in the batch ranker).  `Array.prototype.sort`, which is stable
in modern JavaScript, is modelled by `List.mergeSort`, the stable sort.
-/

namespace Wfm

/-- The seller sub-record embedded in an order (`order.user` upstream).
Every field may be absent in the raw JSON, hence `Option`. -/
structure User where
  ingame_name : Option String := none
  name : Option String := none
  status : Option String := none
  reputation : Option Int := none
  region : Option String := none
deriving DecidableEq, Repr

/-- One raw order listing, as consumed by `getOrdersSummary`.
`platinum` is the price; `visible` is an optional flag (absent means
visible); `user` is the optional embedded seller record. -/
structure Order where
  order_type : String
  platinum : Rat
  quantity : Int := 1
  visible : Option Bool := none
  user : Option User := none
  region : Option String := none
  last_update : String := ""
  platform : String := ""
  subtype : Option String := none
deriving DecidableEq, Repr

/-- The optional-chained seller status `o.user?.status`. -/
def sellerStatus (o : Order) : Option String :=
  o.user.bind (fun u => u.status)

/-- The optional-chained seller reputation `o.user?.reputation`. -/
def sellerRep (o : Order) : Option Int :=
  o.user.bind (fun u => u.reputation)

/-- The optional-chained seller region `o.user?.region`. -/
def sellerRegion (o : Order) : Option String :=
  o.user.bind (fun u => u.region)

/-- The status predicate `statusOk` of `get_orders.ts` (lines 40-46).
`status` is the requested floor; `u` is `o.user?.status`.  The JavaScript
`if (!u) return false` treats both an absent status and the empty string
as falsy, hence the explicit empty-string case. -/
def statusOk (status : String) (u : Option String) : Bool :=
  if status = "any" then true
  else
    match u with
    | none => false
    | some s =>
      if s = "" then false
      else if status = "ingame" then decide (s = "ingame")
      else if status = "online" then decide (s = "ingame") || decide (s = "online")
      else true

/-- The reputation gate: when `min_reputation` is a number, an order
passes iff `(o.user?.reputation ?? -Infinity) >= min_reputation`; an
absent reputation (negative infinity) fails every integer threshold. -/
def repGate (mrep : Option Int) (rep : Option Int) : Bool :=
  match mrep with
  | none => true
  | some m =>
    match rep with
    | some v => decide (m ≤ v)
    | none => false

/-- The region gate: the JavaScript guard `if (region)` skips the filter
when `region` is absent or the empty string (falsy); otherwise an order
passes iff `o.region === region || o.user?.region === region`. -/
def regGate (region : Option String) (o : Order) : Bool :=
  match region with
  | none => true
  | some r =>
    if r = "" then true
    else decide (o.region = some r) || decide (sellerRegion o = some r)

/-- The Order Filter: the four sequential `orders.filter(...)` passes of
`get_orders.ts` lines 48-51 (visibility, status floor, optional
reputation threshold, optional region). -/
def filterOrders (status : String) (min_reputation : Option Int)
    (region : Option String) (orders : List Order) : List Order :=
  let o1 := orders.filter (fun o => decide (o.visible ≠ some false))
  let o2 := o1.filter (fun o => statusOk status (sellerStatus o))
  let o3 :=
    match min_reputation with
    | some m => o2.filter (fun o =>
        match sellerRep o with
        | some v => decide (m ≤ v)
        | none => false)
    | none => o2
  match region with
  | some r =>
    if r = "" then o3
    else o3.filter (fun o => decide (o.region = some r) || decide (sellerRegion o = some r))
  | none => o3

/-- The four gates of the Order Filter as one combined predicate, in the
orientation produced by composing the sequential filters. -/
def filterPred (status : String) (mrep : Option Int) (region : Option String)
    (o : Order) : Bool :=
  regGate region o
    && (repGate mrep (sellerRep o)
      && (statusOk status (sellerStatus o) && decide (o.visible ≠ some false)))

theorem filterOrders_eq_filter (status : String) (mrep : Option Int)
    (region : Option String) (orders : List Order) :
    filterOrders status mrep region orders
      = orders.filter (filterPred status mrep region) := by
  unfold filterOrders
  cases mrep <;> cases region <;> (try simp only [List.filter_filter])
  case none.none =>
    exact List.filter_congr fun o _ => by simp [filterPred, regGate, repGate]
  case none.some r =>
    by_cases hr : r = ""
    · subst hr
      rw [if_pos rfl]
      exact List.filter_congr fun o _ => by simp [filterPred, regGate, repGate]
    · rw [if_neg hr]
      try simp only [List.filter_filter]
      exact List.filter_congr fun o _ => by simp [filterPred, regGate, repGate, hr]
  case some.none m =>
    exact List.filter_congr fun o _ => by simp [filterPred, regGate, repGate]
  case some.some m r =>
    by_cases hr : r = ""
    · subst hr
      rw [if_pos rfl]
      exact List.filter_congr fun o _ => by simp [filterPred, regGate, repGate]
    · rw [if_neg hr]
      try simp only [List.filter_filter]
      exact List.filter_congr fun o _ => by simp [filterPred, regGate, repGate, hr]

/-- Spec-side status predicate, following the claim wording: `any` passes
every order; `ingame` requires seller status exactly `"ingame"`; `online`
requires `"ingame"` or `"online"`; an absent or unknown status fails any
floor stricter than `any`.  To be compared with the source-side
`statusOk`. -/
def claimStatusOk (floor : String) (st : Option String) : Bool :=
  if floor = "any" then true
  else if floor = "ingame" then decide (st = some "ingame")
  else decide (st = some "ingame") || decide (st = some "online")

/-- Spec-side combined filter predicate, following the claim wording for
the four predicates of the Order Filter.  To be compared with the
source-side `filterPred`. -/
def claimPred (floor : String) (mrep : Option Int) (region : Option String)
    (o : Order) : Bool :=
  decide (o.visible ≠ some false)
    && claimStatusOk floor (sellerStatus o)
    && (match mrep with
        | none => true
        | some m =>
          match sellerRep o with
          | some v => decide (m ≤ v)
          | none => false)
    && (match region with
        | none => true
        | some r => decide (o.region = some r) || decide (sellerRegion o = some r))

theorem statusOk_eq_claimStatusOk (floor : String) (st : Option String)
    (h : floor = "any" ∨ floor = "online" ∨ floor = "ingame") :
    statusOk floor st = claimStatusOk floor st := by
  rcases h with h | h | h <;> subst h
  · rfl
  · cases st with
    | none => rfl
    | some s =>
      by_cases hs : s = ""
      · subst hs
        simp [statusOk, claimStatusOk]
      · simp [statusOk, claimStatusOk, hs]
  · cases st with
    | none => rfl
    | some s =>
      by_cases hs : s = ""
      · subst hs
        simp [statusOk, claimStatusOk]
      · simp [statusOk, claimStatusOk, hs]

/-- C4: for every raw order list and filter criteria (with the status
floor one of the three enum values and the region criterion, when set,
a non-empty string), the Order Filter returns exactly the orders that
satisfy the four predicates of the claim: visibility, status floor,
reputation threshold, and region match on either the order or the
seller. -/
theorem c4_order_filter_exact (floor : String) (mrep : Option Int)
    (region : Option String) (orders : List Order)
    (hfloor : floor = "any" ∨ floor = "online" ∨ floor = "ingame")
    (hreg : region ≠ some "") :
    filterOrders floor mrep region orders
      = orders.filter (claimPred floor mrep region) := by
  rw [filterOrders_eq_filter]
  refine List.filter_congr fun o _ => ?_
  have hb : ∀ a b c d : Bool, (d && (c && (b && a))) = (a && b && c && d) := by decide
  show (regGate region o && (repGate mrep (sellerRep o)
      && (statusOk floor (sellerStatus o) && decide (o.visible ≠ some false))))
    = claimPred floor mrep region o
  rw [statusOk_eq_claimStatusOk floor (sellerStatus o) hfloor, hb]
  unfold claimPred regGate repGate
  cases region with
  | none => rfl
  | some r =>
    have hr : r ≠ "" := fun hc => hreg (by rw [hc])
    simp [hr]

/-- A sample order list used by concrete witnesses. -/
def sampleOrders : List Order :=
  [ { order_type := "sell", platinum := 100,
      user := some { status := some "ingame", reputation := some 7, region := some "en" } },
    { order_type := "sell", platinum := 120, visible := some false,
      user := some { status := some "ingame", reputation := some 9 } },
    { order_type := "sell", platinum := 80,
      user := some { status := some "online", reputation := some 2 } },
    { order_type := "buy", platinum := 90, region := some "en",
      user := some { status := some "ingame", reputation := some 5 } },
    { order_type := "buy", platinum := 60, user := none } ]

/-- Witness for C4 at a concrete floor, reputation threshold, region and
order list. -/
theorem c4_order_filter_exact_witness :
    filterOrders "online" (some 3) (some "en") sampleOrders
      = sampleOrders.filter (claimPred "online" (some 3) (some "en")) :=
  c4_order_filter_exact "online" (some 3) (some "en") sampleOrders
    (Or.inr (Or.inl rfl)) (by decide)

/-- C8: for every order list and every filter criteria, the Order
Filter's output is a subset of its input, and the filter is idempotent:
filtering its own output with the same criteria returns that output
unchanged. -/
theorem c8_filter_subset_idempotent (status : String) (mrep : Option Int)
    (region : Option String) (orders : List Order) :
    filterOrders status mrep region orders ⊆ orders
      ∧ filterOrders status mrep region (filterOrders status mrep region orders)
          = filterOrders status mrep region orders := by
  constructor
  · rw [filterOrders_eq_filter]
    exact (List.filter_sublist orders).subset
  · rw [filterOrders_eq_filter, filterOrders_eq_filter, List.filter_filter]
    exact List.filter_congr fun o _ => Bool.and_self _

theorem statusOk_ingame_le_online (u : Option String) :
    statusOk "ingame" u = true → statusOk "online" u = true := by
  cases u with
  | none => simp [statusOk]
  | some s =>
    by_cases hs : s = "" <;> simp [statusOk, hs]
    intro h
    simp [h]

/-- C9: with all other criteria fixed, the filter result under the
`ingame` status floor is a subset of the result under `online`, which is
a subset of the result under `any`. -/
theorem c9_status_floor_monotone (mrep : Option Int) (region : Option String)
    (orders : List Order) :
    filterOrders "ingame" mrep region orders ⊆ filterOrders "online" mrep region orders
      ∧ filterOrders "online" mrep region orders ⊆ filterOrders "any" mrep region orders := by
  constructor
  · intro o ho
    rw [filterOrders_eq_filter, List.mem_filter] at ho ⊢
    refine ⟨ho.1, ?_⟩
    have h := ho.2
    unfold filterPred at h ⊢
    simp only [Bool.and_eq_true] at h ⊢
    exact ⟨h.1, h.2.1, statusOk_ingame_le_online _ h.2.2.1, h.2.2.2⟩
  · intro o ho
    rw [filterOrders_eq_filter, List.mem_filter] at ho ⊢
    refine ⟨ho.1, ?_⟩
    have h := ho.2
    unfold filterPred at h ⊢
    simp only [Bool.and_eq_true] at h ⊢
    exact ⟨h.1, h.2.1, rfl, h.2.2.2⟩

/-- The sell-side test `o.order_type === "sell"`. -/
def isSellOrder (o : Order) : Bool := decide (o.order_type = "sell")

/-- The buy-side test `o.order_type === "buy"`. -/
def isBuyOrder (o : Order) : Bool := decide (o.order_type = "buy")

/-- The ascending price comparator `(a, b) => a.platinum - b.platinum`. -/
def priceLE (a b : Order) : Bool := decide (a.platinum ≤ b.platinum)

/-- The descending price comparator `(a, b) => b.platinum - a.platinum`. -/
def priceGE (a b : Order) : Bool := decide (b.platinum ≤ a.platinum)

/-- The sell side: `orders.filter(o => o.order_type === "sell").sort((a, b)
=> a.platinum - b.platinum)` (`get_orders.ts` line 55); the JavaScript
sort is stable, hence `mergeSort`. -/
def sortedSells (orders : List Order) : List Order :=
  (orders.filter isSellOrder).mergeSort priceLE

/-- The buy side, sorted descending (`get_orders.ts` line 56). -/
def sortedBuys (orders : List Order) : List Order :=
  (orders.filter isBuyOrder).mergeSort priceGE

/-- JavaScript `Number(v) || d`: an absent value (NaN after `Number`) and
0 are both falsy, so both fall back to the default. -/
def jsNumOr (v : Option Int) (d : Int) : Int :=
  match v with
  | none => d
  | some x => if x = 0 then d else x

/-- The clamp `const k = Math.max(1, Math.min(10, Number(depth) || 5))`
(`get_orders.ts` line 61). -/
def effectiveDepth (depth : Option Int) : Int :=
  max 1 (min 10 (jsNumOr depth 5))

/-- The local `slice` of the Midpoint Estimator (`get_orders.ts` line
64): the first `min(k, length)` prices of the side, re-sorted ascending
(`.sort((a, b) => a - b)`, modelled by the stable `mergeSort`). -/
def midSlice (k : Nat) (arr : List Order) : List Rat :=
  ((arr.take (min k arr.length)).map (fun x => x.platinum)).mergeSort
    (fun a b => decide (a ≤ b))

/-- The Midpoint Estimator `mid` of `get_orders.ts` lines 62-67: absent
on an empty side, else the median of `midSlice` — the middle element for
an odd length (`m = floor(len / 2)`), else the mean of the elements at
`m - 1` and `m`. -/
def mid (k : Nat) (arr : List Order) : Option Rat :=
  if arr.length = 0 then none
  else if (midSlice k arr).length % 2 ≠ 0 then
    some ((midSlice k arr).getD ((midSlice k arr).length / 2) 0)
  else
    some (((midSlice k arr).getD ((midSlice k arr).length / 2 - 1) 0
      + (midSlice k arr).getD ((midSlice k arr).length / 2) 0) / 2)

/-- Modelled from the claim/spec wording: the top-`min(k, length)` window
of the favorability-sorted side, re-sorted ascending by price (here with
insertion sort, any correct ascending sort). -/
def midSpecWindow (k : Nat) (arr : List Order) : List Rat :=
  List.insertionSort (· ≤ ·) ((arr.take (min k arr.length)).map (fun x => x.platinum))

/-- Modelled from the claim/spec wording for the Midpoint Estimator: the
statistical median of the ascending window — the single middle element of
an odd-length window, the arithmetic mean of the two middle elements of
an even-length window; absent when the side has zero orders.  To be
compared with the source-side `mid`. -/
def midSpec (k : Nat) (arr : List Order) : Option Rat :=
  if arr = [] then none
  else if (midSpecWindow k arr).length % 2 ≠ 0 then
    some ((midSpecWindow k arr).getD ((midSpecWindow k arr).length / 2) 0)
  else
    some (((midSpecWindow k arr).getD ((midSpecWindow k arr).length / 2 - 1) 0
      + (midSpecWindow k arr).getD ((midSpecWindow k arr).length / 2) 0) / 2)

theorem midSlice_eq_midSpecWindow (k : Nat) (arr : List Order) :
    midSlice k arr = midSpecWindow k arr := by
  unfold midSlice midSpecWindow
  exact List.mergeSort_eq_insertionSort (· ≤ ·)
    ((arr.take (min k arr.length)).map (fun x => x.platinum))

/-- C1: the per-side midpoint of the code equals the statistical median
of the ascending re-sort of the top-`min(k, length)` window of the
favorability-sorted side, and it is absent exactly when the side has zero
orders. -/
theorem c1_midpoint_topk_median (k : Nat) (arr : List Order) (_hk : 1 ≤ k) :
    mid k arr = midSpec k arr ∧ (mid k arr = none ↔ arr = []) := by
  constructor
  · cases arr with
    | nil => simp [mid, midSpec]
    | cons a t =>
      unfold mid midSpec
      rw [midSlice_eq_midSpecWindow]
      rw [if_neg (show ¬((a :: t).length = 0) by simp),
        if_neg (show ¬(a :: t = []) by simp)]
  · cases arr with
    | nil => simp [mid]
    | cons a t =>
      constructor
      · intro h
        exfalso
        unfold mid at h
        rw [if_neg (show ¬((a :: t).length = 0) by simp)] at h
        revert h
        split <;> simp
      · intro h
        exact absurd h (by simp)

/-- A sell order at price 100 and one at price 80. -/
def wOrders : List Order :=
  [ { order_type := "sell", platinum := 100 }, { order_type := "sell", platinum := 80 } ]

/-- Witness for C1 at depth 2 over a concrete two-order side. -/
theorem c1_midpoint_topk_median_witness :
    mid 2 wOrders = midSpec 2 wOrders ∧ (mid 2 wOrders = none ↔ wOrders = []) :=
  c1_midpoint_topk_median 2 wOrders (by decide)

/-- C5 counterexample: a caller-supplied depth of 0 is falsy in
JavaScript (`Number(depth) || 5`), so the effective depth is 5, not the
claimed clamp `max(1, min(10, 0)) = 1`. -/
theorem c5_depth_clamp_counterexample :
    effectiveDepth (some 0) ≠ max 1 (min 10 (0 : Int))
      ∧ effectiveDepth (some 0) = 5 := by
  constructor
  · decide
  · decide

/-- C5 amended: for every caller-supplied non-zero depth `d` the
effective top-k window size equals `max(1, min(10, d))`; an absent depth
and a zero depth both fall back to the default 5. -/
theorem c5_depth_clamp (d : Int) (hd : d ≠ 0) :
    effectiveDepth (some d) = max 1 (min 10 d)
      ∧ effectiveDepth none = 5 ∧ effectiveDepth (some 0) = 5 := by
  refine ⟨?_, by decide, by decide⟩
  simp [effectiveDepth, jsNumOr, hd]

/-- Witness for C5 at depth 12 (clamped to 10). -/
theorem c5_depth_clamp_witness :
    effectiveDepth (some 12) = max 1 (min 10 12)
      ∧ effectiveDepth none = 5 ∧ effectiveDepth (some 0) = 5 :=
  c5_depth_clamp 12 (by decide)

/-- The compact best-quote projection (`get_orders.ts` lines 75-88). -/
structure BestQuote where
  platinum : Rat
  quantity : Int
  user : Option String
  region : Option String
  last_update : String
  platform : String
  subtype : Option String
  status : Option String
  reputation : Option Int
deriving DecidableEq, Repr

/-- Project one order to its best-quote record: the `user` field falls
back from `user?.ingame_name` to `user?.name`, else absent. -/
def projectQuote (o : Order) : BestQuote :=
  { platinum := o.platinum
    quantity := o.quantity
    user := (o.user.bind (fun u => u.ingame_name)).orElse
      (fun _ => o.user.bind (fun u => u.name))
    region := o.region
    last_update := o.last_update
    platform := o.platform
    subtype := o.subtype
    status := sellerStatus o
    reputation := sellerRep o }

/-- The subtraction `const spread_abs = (mid_buy ?? 0) - (mid_sell ?? 0)`. -/
def spreadAbsOf (ms mb : Option Rat) : Rat := mb.getD 0 - ms.getD 0

/-- The ratio `const spread_pct = mid_sell ? spread_abs / mid_sell : null` — the
JavaScript truthiness test makes both an absent and a zero sell midpoint
yield `null`. -/
def spreadPctOf (ms : Option Rat) (sa : Rat) : Option Rat :=
  match ms with
  | some v => if v = 0 then none else some (sa / v)
  | none => none

/-- The Summary record returned by the summarize branch of
`getOrdersSummary` (lines 74-93): best quotes, midpoints, spread, totals
and the echoed filters. -/
structure Summary where
  best_sell : Option BestQuote
  best_buy : Option BestQuote
  mid_sell : Option Rat
  mid_buy : Option Rat
  spread_abs : Rat
  spread_pct : Option Rat
  total_sells : Nat
  total_buys : Nat
  f_status : String
  f_min_reputation : Option Int
  f_region : Option String
  f_depth : Int
deriving DecidableEq, Repr

/-- Build the Summary from the already-filtered order list (lines 55-93
of `get_orders.ts`); `kd` is the effective depth `k`. -/
def mkSummary (status : String) (mrep : Option Int) (region : Option String)
    (kd : Int) (filtered : List Order) : Summary :=
  let sells := sortedSells filtered
  let buys := sortedBuys filtered
  let ms := mid kd.toNat sells
  let mb := mid kd.toNat buys
  { best_sell := sells.head?.map projectQuote
    best_buy := buys.head?.map projectQuote
    mid_sell := ms
    mid_buy := mb
    spread_abs := spreadAbsOf ms mb
    spread_pct := spreadPctOf ms (spreadAbsOf ms mb)
    total_sells := sells.length
    total_buys := buys.length
    f_status := status
    f_min_reputation := mrep
    f_region := region
    f_depth := kd }

/-- C2: in every summary, the absolute spread is the buy midpoint minus
the sell midpoint with absent treated as 0, and the spread percent is
`spread_abs / mid_sell` exactly when the sell midpoint is present and
non-zero; it is absent (never NaN, infinite, zero-by-default or an
error) when the sell midpoint is absent or zero. -/
theorem c2_spread_definition (status : String) (mrep : Option Int)
    (region : Option String) (kd : Int) (filtered : List Order) :
    ((mkSummary status mrep region kd filtered).spread_abs
        = (mkSummary status mrep region kd filtered).mid_buy.getD 0
          - (mkSummary status mrep region kd filtered).mid_sell.getD 0)
    ∧ (∀ v : Rat, (mkSummary status mrep region kd filtered).mid_sell = some v →
        v ≠ 0 →
        (mkSummary status mrep region kd filtered).spread_pct
          = some ((mkSummary status mrep region kd filtered).spread_abs / v))
    ∧ (((mkSummary status mrep region kd filtered).mid_sell = none
          ∨ (mkSummary status mrep region kd filtered).mid_sell = some 0) →
        (mkSummary status mrep region kd filtered).spread_pct = none) := by
  refine ⟨rfl, ?_, ?_⟩
  · intro v hv hvne
    have hpct : (mkSummary status mrep region kd filtered).spread_pct
        = spreadPctOf (mkSummary status mrep region kd filtered).mid_sell
            (mkSummary status mrep region kd filtered).spread_abs := rfl
    rw [hpct, hv]
    simp [spreadPctOf, hvne]
  · intro h
    have hpct : (mkSummary status mrep region kd filtered).spread_pct
        = spreadPctOf (mkSummary status mrep region kd filtered).mid_sell
            (mkSummary status mrep region kd filtered).spread_abs := rfl
    rcases h with h | h <;> rw [hpct, h] <;> simp [spreadPctOf]

theorem priceLE_trans (a b c : Order) (h1 : priceLE a b = true)
    (h2 : priceLE b c = true) : priceLE a c = true := by
  simp only [priceLE, decide_eq_true_eq] at h1 h2 ⊢
  exact le_trans h1 h2

theorem priceLE_total (a b : Order) : (priceLE a b || priceLE b a) = true := by
  simp only [priceLE, Bool.or_eq_true, decide_eq_true_eq]
  exact le_total a.platinum b.platinum

theorem priceGE_trans (a b c : Order) (h1 : priceGE a b = true)
    (h2 : priceGE b c = true) : priceGE a c = true := by
  simp only [priceGE, decide_eq_true_eq] at h1 h2 ⊢
  exact le_trans h2 h1

theorem priceGE_total (a b : Order) : (priceGE a b || priceGE b a) = true := by
  simp only [priceGE, Bool.or_eq_true, decide_eq_true_eq]
  exact le_total b.platinum a.platinum

/-- The head of a stable sort is a member of the list and is below every
member, for any transitive total Boolean comparator. -/
theorem mergeSort_head_min {α : Type} {le : α → α → Bool}
    (htrans : ∀ a b c, le a b = true → le b c = true → le a c = true)
    (htotal : ∀ a b, (le a b || le b a) = true)
    {l : List α} {x : α} {rest : List α} (h : l.mergeSort le = x :: rest) :
    x ∈ l ∧ ∀ y ∈ l, le x y = true := by
  have hperm := List.mergeSort_perm l le
  have hsorted := List.sorted_mergeSort htrans htotal l
  rw [h] at hperm hsorted
  constructor
  · exact hperm.mem_iff.mp (List.mem_cons_self x rest)
  · intro y hy
    have hy2 : y ∈ x :: rest := hperm.mem_iff.mpr hy
    rcases List.mem_cons.mp hy2 with h1 | h2
    · subst h1
      have := htotal y y
      simpa using this
    · exact (List.pairwise_cons.mp hsorted).1 y h2

/-- C7: the best-sell quote is an eligible sell order of minimal price,
the best-buy quote an eligible buy order of maximal price, and each is
absent exactly when its side has no eligible orders. -/
theorem c7_best_quotes (status : String) (mrep : Option Int)
    (region : Option String) (kd : Int) (filtered : List Order) :
    ((mkSummary status mrep region kd filtered).best_sell = none
        ↔ filtered.filter isSellOrder = [])
    ∧ (∀ q, (mkSummary status mrep region kd filtered).best_sell = some q →
        ∃ o, o ∈ filtered.filter isSellOrder ∧ q = projectQuote o
          ∧ ∀ o2 ∈ filtered.filter isSellOrder, o.platinum ≤ o2.platinum)
    ∧ ((mkSummary status mrep region kd filtered).best_buy = none
        ↔ filtered.filter isBuyOrder = [])
    ∧ (∀ q, (mkSummary status mrep region kd filtered).best_buy = some q →
        ∃ o, o ∈ filtered.filter isBuyOrder ∧ q = projectQuote o
          ∧ ∀ o2 ∈ filtered.filter isBuyOrder, o2.platinum ≤ o.platinum) := by
  have hsell : (mkSummary status mrep region kd filtered).best_sell
      = (sortedSells filtered).head?.map projectQuote := rfl
  have hbuy : (mkSummary status mrep region kd filtered).best_buy
      = (sortedBuys filtered).head?.map projectQuote := rfl
  refine ⟨?_, ?_, ?_, ?_⟩
  · rw [hsell]
    cases hs : sortedSells filtered with
    | nil =>
      constructor
      · intro _
        have hlen := congrArg List.length hs
        rw [sortedSells, List.length_mergeSort] at hlen
        exact List.length_eq_zero.mp hlen
      · intro _
        rfl
    | cons x rest =>
      constructor
      · intro hc
        exact absurd hc (by simp)
      · intro hc
        rw [sortedSells, hc] at hs
        simpa using congrArg List.length hs
  · intro q hq
    rw [hsell] at hq
    cases hs : sortedSells filtered with
    | nil => rw [hs] at hq; simp at hq
    | cons x rest =>
      rw [hs] at hq
      have hq2 : q = projectQuote x := by simpa using hq.symm
      have hmin := mergeSort_head_min priceLE_trans priceLE_total hs
      refine ⟨x, hmin.1, hq2, ?_⟩
      intro o2 ho2
      have := hmin.2 o2 ho2
      simpa [priceLE] using this
  · rw [hbuy]
    cases hs : sortedBuys filtered with
    | nil =>
      constructor
      · intro _
        have hlen := congrArg List.length hs
        rw [sortedBuys, List.length_mergeSort] at hlen
        exact List.length_eq_zero.mp hlen
      · intro _
        rfl
    | cons x rest =>
      constructor
      · intro hc
        exact absurd hc (by simp)
      · intro hc
        rw [sortedBuys, hc] at hs
        simpa using congrArg List.length hs
  · intro q hq
    rw [hbuy] at hq
    cases hs : sortedBuys filtered with
    | nil => rw [hs] at hq; simp at hq
    | cons x rest =>
      rw [hs] at hq
      have hq2 : q = projectQuote x := by simpa using hq.symm
      have hmin := mergeSort_head_min priceGE_trans priceGE_total hs
      refine ⟨x, hmin.1, hq2, ?_⟩
      intro o2 ho2
      have := hmin.2 o2 ho2
      simpa [priceGE] using this

/-- The dynamically-typed `url_name` argument: absent, a string, or some
non-string JSON value. -/
inductive UrlNameArg where
  | missing
  | str (s : String)
  | nonString
deriving DecidableEq, Repr

/-- The test `!url_name || typeof url_name !== "string"`: the validation guard of
`get_orders.ts` line 33 rejects an absent value, a non-string value, and
(via JavaScript falsiness) the empty string. -/
def urlInvalid : UrlNameArg → Bool
  | .missing => true
  | .nonString => true
  | .str s => decide (s = "")

/-- The arguments of `getOrdersSummary`, after the destructuring defaults
of `get_orders.ts` lines 29-32 (`status = "any"`, `summarize = true`,
`depth` absent when not supplied). -/
structure GetOrdersArgs where
  url_name : UrlNameArg
  status : String := "any"
  min_reputation : Option Int := none
  region : Option String := none
  depth : Option Int := none
  summarize : Bool := true
deriving DecidableEq, Repr

/-- The two result shapes of `getOrdersSummary`: the raw filtered list
(`summarize: false`) or the Summary record. -/
inductive OrdersResult where
  | ordersOnly (orders : List Order)
  | summarized (s : Summary)
deriving DecidableEq, Repr

/-- The Snapshot Summarizer `getOrdersSummary` of `get_orders.ts`.  The
remote order source is an explicit input: `fetched` is the order list
extracted from the response payload (`data?.payload?.orders ?? []`), or
the error thrown by `wfmFetch` on transport failure or a non-success
status (`http.ts` lines 51-55), which the summarizer does not catch.
Validation of `url_name` precedes the fetch, so an invalid identifier
yields the validation error regardless of `fetched`. -/
def getOrdersSummary (args : GetOrdersArgs)
    (fetched : Except String (List Order)) : Except String OrdersResult :=
  if urlInvalid args.url_name then .error "url_name (string) is required"
  else
    match fetched with
    | .error e => .error e
    | .ok orders =>
      let filtered := filterOrders args.status args.min_reputation args.region orders
      if args.summarize = false then .ok (.ordersOnly filtered)
      else .ok (.summarized (mkSummary args.status args.min_reputation args.region
        (effectiveDepth args.depth) filtered))

/-- C6 counterexample: the empty string is a present string identifier,
yet `getOrdersSummary` rejects it (JavaScript `!url_name` is true for
`""`), so "throws exactly when the identifier is missing or not a string,
or the remote source fails" is violated: here the identifier is a string
and the remote source succeeds, and the call still fails. -/
theorem c6_throw_counterexample :
    getOrdersSummary { url_name := UrlNameArg.str "" } (Except.ok [])
      = Except.error "url_name (string) is required"
    ∧ urlInvalid (UrlNameArg.str "") = true := by
  constructor
  · rfl
  · rfl

/-- C6 amended: `getOrdersSummary` fails exactly when the identifier is
missing, not a string, or the empty string, or the remote order source
fails; a validation failure yields its error before and independently of
the fetch, and a remote failure is propagated verbatim, never downgraded
to an empty or default Summary. -/
theorem c6_throw_conditions (args : GetOrdersArgs)
    (fetched other : Except String (List Order)) :
    (urlInvalid args.url_name = true →
        getOrdersSummary args fetched = Except.error "url_name (string) is required"
          ∧ getOrdersSummary args fetched = getOrdersSummary args other)
    ∧ (∀ e, urlInvalid args.url_name = false → fetched = Except.error e →
        getOrdersSummary args fetched = Except.error e)
    ∧ ((getOrdersSummary args fetched).isOk = false
        ↔ (urlInvalid args.url_name = true ∨ fetched.isOk = false)) := by
  refine ⟨?_, ?_, ?_⟩
  · intro h
    unfold getOrdersSummary
    rw [h]
    exact ⟨rfl, rfl⟩
  · intro e h hf
    unfold getOrdersSummary
    rw [h, hf]
    rfl
  · unfold getOrdersSummary
    by_cases h : urlInvalid args.url_name = true
    · simp [h, Except.isOk, Except.toBool]
    · rw [Bool.not_eq_true] at h
      rw [h]
      simp only [Bool.false_eq_true, if_false, false_or]
      cases fetched with
      | error e => simp [Except.isOk, Except.toBool]
      | ok orders =>
        by_cases hs : args.summarize = false <;> simp [hs, Except.isOk, Except.toBool]

/-- One catalog entry of the `/items` endpoint. -/
structure CatalogItem where
  item_name : Option String := none
  url_name : String
deriving DecidableEq, Repr

/-- Does the first character list start with the second? -/
def beginsWith : List Char → List Char → Bool
  | _, [] => true
  | [], _ :: _ => false
  | a :: as, b :: bs => decide (a = b) && beginsWith as bs

/-- Is `pat` a contiguous run of the second list?  (JavaScript
`String.prototype.includes` on the underlying characters.) -/
def includesAux (pat : List Char) : List Char → Bool
  | [] => pat.isEmpty
  | c :: rest => beginsWith (c :: rest) pat || includesAux pat rest

/-- The substring test `s.includes(q)` for strings. -/
def strIncludes (s q : String) : Bool := includesAux q.toList s.toList

/-- The client-side catalog match of `best_flips.ts` lines 229-233:
case-insensitive substring match of the query against `item_name` or
`url_name` (an absent `item_name` is falsy and fails its disjunct).  `q`
is already lowercased by the caller. -/
def matchesQuery (q : String) (it : CatalogItem) : Bool :=
  (match it.item_name with
    | some nm => strIncludes nm.toLower q
    | none => false)
    || strIncludes it.url_name.toLower q

/-- The clamp `Math.max(1, Math.min(50, Number(limit_search) || 10))`
(`best_flips.ts` line 234). -/
def searchLimitOf (limit_search : Option Int) : Nat :=
  (max 1 (min 50 (jsNumOr limit_search 10))).toNat

/-- The search branch of the target resolution: when a non-empty `query`
is present, lowercase it, filter the catalog, cap at the search limit and
keep the slugs; otherwise no targets. -/
def searchTargets (query : Option String) (limit_search : Option Int)
    (catalog : List CatalogItem) : List String :=
  match query with
  | some q =>
    if q = "" then []
    else ((catalog.filter (matchesQuery q.toLower)).take (searchLimitOf limit_search)).map
      (fun it => it.url_name)
  | none => []

/-- Target resolution of `best_flips.ts` lines 220-236: a non-empty
explicit `url_names` array is used as-is; otherwise the catalog search
runs (the JavaScript guard `if (!targets.length && query)` also treats an
empty-string query as no query). -/
def resolveTargets (url_names : Option (List String)) (query : Option String)
    (limit_search : Option Int) (catalog : List CatalogItem) : List String :=
  match url_names with
  | some l => if l.isEmpty then searchTargets query limit_search catalog else l
  | none => searchTargets query limit_search catalog

/-- The arguments of the `wfm_best_flips` handler after destructuring
defaults (`status = "ingame"`, `min_spread_pct = 0`; `depth` and
`limit_search` keep their absent state, defaulted where used). -/
structure BestFlipsArgs where
  url_names : Option (List String) := none
  query : Option String := none
  limit_search : Option Int := none
  status : String := "ingame"
  min_reputation : Option Int := none
  region : Option String := none
  depth : Option Int := none
  min_spread_pct : Rat := 0
deriving DecidableEq, Repr

/-- One result row of `wfm_best_flips`: either a computed row for an item
whose summarization succeeded, or an error row (`{ url_name, error }`)
for an item whose summarization threw. -/
inductive FlipRow where
  | ok (url_name : String) (mid_sell mid_buy : Option Rat)
      (spread_abs spread_pct : Rat) (total_sells total_buys : Nat)
      (f_status : String) (f_min_reputation : Option Int)
      (f_region : Option String) (f_depth : Int)
      (best_sell best_buy : Option BestQuote)
  | err (url_name : String) (msg : String)
deriving DecidableEq, Repr

/-- The sort key of a row: its `spread_pct`, absent on error rows. -/
def rowKey : FlipRow → Option Rat
  | .ok _ _ _ _ p _ _ _ _ _ _ _ _ => some p
  | .err _ _ => none

/-- Comparison of sort keys with an absent key as negative infinity
(`b.spread_pct ?? -Infinity` in the comparator). -/
def keyLE : Option Rat → Option Rat → Bool
  | none, _ => true
  | some _, none => false
  | some x, some y => decide (x ≤ y)

/-- The comparator `(a, b) => (b.spread_pct ?? -Infinity) -
(a.spread_pct ?? -Infinity)` as the "may precede" relation of the stable
sort: `a` may precede `b` iff the key of `b` is ≤ the key of `a`.  (When
both keys are absent the comparator evaluates to NaN, which the sort
treats as 0, i.e. as a tie.) -/
def flipLE (a b : FlipRow) : Bool := keyLE (rowKey b) (rowKey a)

/-- The per-item body of the loop of `best_flips.ts` lines 244-282:
summarize the item (catching a thrown error into an error row), recompute
the spread from the midpoints, and keep the row only when the spread
percent is non-null and at least the threshold; `none` when the row is
discarded. -/
def flipCallArgs (status : String) (mrep : Option Int) (region : Option String)
    (d : Int) (slug : String) : GetOrdersArgs :=
  { url_name := UrlNameArg.str slug, status := status, min_reputation := mrep,
    region := region, depth := some d, summarize := true }

def rowFor (status : String) (mrep : Option Int) (region : Option String)
    (d : Int) (oracle : String → Except String (List Order)) (minPct : Rat)
    (slug : String) : Option FlipRow :=
  match getOrdersSummary (flipCallArgs status mrep region d slug) (oracle slug) with
  | .error e => some (.err slug e)
  | .ok (.ordersOnly _) => none
  | .ok (.summarized s) =>
    match spreadPctOf s.mid_sell (spreadAbsOf s.mid_sell s.mid_buy) with
    | none => none
    | some pct =>
      if minPct ≤ pct then
        some (.ok slug s.mid_sell s.mid_buy (spreadAbsOf s.mid_sell s.mid_buy) pct
          s.total_sells s.total_buys s.f_status s.f_min_reputation s.f_region s.f_depth
          s.best_sell s.best_buy)
      else none

/-- The surviving rows in loop order, then the final stable sort by
spread percent descending (`best_flips.ts` lines 285-287). -/
def flipRows (status : String) (mrep : Option Int) (region : Option String)
    (d : Int) (oracle : String → Except String (List Order)) (minPct : Rat)
    (targets : List String) : List FlipRow :=
  (targets.filterMap (rowFor status mrep region d oracle minPct)).mergeSort flipLE

/-- The `wfm_best_flips` handler: resolve targets (throwing when none),
build the rows with the shared summarizer (depth destructuring default
3), sort, and return the count with the ordered rows. -/
def bestFlips (args : BestFlipsArgs) (catalog : List CatalogItem)
    (oracle : String → Except String (List Order)) :
    Except String (Nat × List FlipRow) :=
  if (resolveTargets args.url_names args.query args.limit_search catalog).isEmpty then
    .error "Provide either url_names or query"
  else
    .ok ((flipRows args.status args.min_reputation args.region (args.depth.getD 3)
        oracle args.min_spread_pct
        (resolveTargets args.url_names args.query args.limit_search catalog)).length,
      flipRows args.status args.min_reputation args.region (args.depth.getD 3)
        oracle args.min_spread_pct
        (resolveTargets args.url_names args.query args.limit_search catalog))

theorem keyLE_trans (x y z : Option Rat) (h1 : keyLE x y = true)
    (h2 : keyLE y z = true) : keyLE x z = true := by
  cases x <;> cases y <;> cases z <;> simp [keyLE] at h1 h2 ⊢
  exact le_trans h1 h2

theorem keyLE_total (x y : Option Rat) : (keyLE x y || keyLE y x) = true := by
  cases x <;> cases y <;> simp [keyLE]
  exact le_total _ _

theorem flipLE_trans (a b c : FlipRow) (h1 : flipLE a b = true)
    (h2 : flipLE b c = true) : flipLE a c = true :=
  keyLE_trans (rowKey c) (rowKey b) (rowKey a) h2 h1

theorem flipLE_total (a b : FlipRow) : (flipLE a b || flipLE b a) = true := by
  unfold flipLE
  rw [Bool.or_comm]
  exact keyLE_total (rowKey a) (rowKey b)

theorem flipLE_err_after (a b : FlipRow) (h : flipLE a b = true)
    (ha : rowKey a = none) : rowKey b = none := by
  unfold flipLE at h
  rw [ha] at h
  cases hb : rowKey b with
  | none => rfl
  | some p => rw [hb] at h; simp [keyLE] at h

/-- C3: whenever `wfm_best_flips` returns, its count is the row count;
its rows are a permutation of the per-target surviving rows — one error
row for each target whose summarization threw (kept regardless of the
threshold), plus the computed row of each target whose spread percent is
present and at least the threshold; the rows are sorted by spread percent
descending with an absent percent as negative infinity, so every error
row comes after every numeric row. -/
theorem c3_rank_and_errors (args : BestFlipsArgs) (catalog : List CatalogItem)
    (oracle : String → Except String (List Order)) (n : Nat) (rows : List FlipRow)
    (h : bestFlips args catalog oracle = Except.ok (n, rows)) :
    n = rows.length
    ∧ rows.Perm ((resolveTargets args.url_names args.query args.limit_search catalog).filterMap
        (rowFor args.status args.min_reputation args.region (args.depth.getD 3)
          oracle args.min_spread_pct))
    ∧ rows.Pairwise (fun a b => flipLE a b = true)
    ∧ rows.Pairwise (fun a b => rowKey a = none → rowKey b = none)
    ∧ (∀ slug e,
        slug ∈ resolveTargets args.url_names args.query args.limit_search catalog →
        getOrdersSummary (flipCallArgs args.status args.min_reputation args.region
            (args.depth.getD 3) slug) (oracle slug)
          = Except.error e →
        FlipRow.err slug e ∈ rows) := by
  unfold bestFlips at h
  by_cases ht : (resolveTargets args.url_names args.query args.limit_search catalog).isEmpty
  · rw [if_pos ht] at h
    exact absurd h (by simp)
  · rw [if_neg ht] at h
    injection h with h2
    injection h2 with hn hrows
    subst hrows
    refine ⟨hn.symm, ?_, ?_, ?_, ?_⟩
    · unfold flipRows
      exact List.mergeSort_perm _ _
    · unfold flipRows
      exact List.sorted_mergeSort flipLE_trans flipLE_total _
    · unfold flipRows
      exact (List.sorted_mergeSort flipLE_trans flipLE_total _).imp
        (fun hab => flipLE_err_after _ _ hab)
    · intro slug e hslug hsum
      unfold flipRows
      rw [List.mem_mergeSort]
      refine List.mem_filterMap.mpr ⟨slug, hslug, ?_⟩
      unfold rowFor
      rw [hsum]

/-- Concrete arguments for the C3 witness: one explicit target whose
fetch fails. -/
def cw3Args : BestFlipsArgs := { url_names := some ["a"] }

/-- A remote order source that fails for every item. -/
def cw3Oracle : String → Except String (List Order) := fun _ => Except.error "boom"

theorem cw3_run : bestFlips cw3Args [] cw3Oracle
    = Except.ok (1, [FlipRow.err "a" "boom"]) := by
  have h1 : resolveTargets cw3Args.url_names cw3Args.query cw3Args.limit_search [] = ["a"] := rfl
  have h2 : rowFor cw3Args.status cw3Args.min_reputation cw3Args.region
      (cw3Args.depth.getD 3) cw3Oracle cw3Args.min_spread_pct "a"
      = some (FlipRow.err "a" "boom") := by decide
  unfold bestFlips flipRows
  rw [h1, List.filterMap_cons, h2]
  simp

/-- Witness for C3 on that concrete run. -/
theorem c3_rank_and_errors_witness :
    1 = [FlipRow.err "a" "boom"].length
    ∧ [FlipRow.err "a" "boom"].Perm
        ((resolveTargets cw3Args.url_names cw3Args.query cw3Args.limit_search []).filterMap
          (rowFor cw3Args.status cw3Args.min_reputation cw3Args.region
            (cw3Args.depth.getD 3) cw3Oracle cw3Args.min_spread_pct))
    ∧ [FlipRow.err "a" "boom"].Pairwise (fun a b => flipLE a b = true)
    ∧ [FlipRow.err "a" "boom"].Pairwise (fun a b => rowKey a = none → rowKey b = none)
    ∧ (∀ slug e,
        slug ∈ resolveTargets cw3Args.url_names cw3Args.query cw3Args.limit_search [] →
        getOrdersSummary (flipCallArgs cw3Args.status cw3Args.min_reputation cw3Args.region
            (cw3Args.depth.getD 3) slug) (cw3Oracle slug)
          = Except.error e →
        FlipRow.err slug e ∈ [FlipRow.err "a" "boom"]) :=
  c3_rank_and_errors cw3Args [] cw3Oracle 1 [FlipRow.err "a" "boom"] cw3_run

/-- Assemble a `BestFlipsArgs` record from its eight fields. -/
def mkFlipArgs (url_names : Option (List String)) (query : Option String)
    (limit_search : Option Int) (status : String) (mrep : Option Int)
    (region : Option String) (depth : Option Int) (minPct : Rat) : BestFlipsArgs :=
  { url_names := url_names, query := query, limit_search := limit_search,
    status := status, min_reputation := mrep, region := region,
    depth := depth, min_spread_pct := minPct }

/-- C10: with a non-empty explicit `url_names` list, the analyzed targets
are exactly that list in order, and the whole result is independent of
the `query` and `limit_search` arguments and of the `/items` catalog (no
catalog fetch influences the outcome). -/
theorem c10_explicit_list_ignores_search (l : List String) (hne : l ≠ [])
    (q q2 : Option String) (ls ls2 : Option Int)
    (catalog catalog2 : List CatalogItem) (status : String) (mrep : Option Int)
    (region : Option String) (depth : Option Int) (minPct : Rat)
    (oracle : String → Except String (List Order)) :
    resolveTargets (some l) q ls catalog = l
    ∧ bestFlips (mkFlipArgs (some l) q ls status mrep region depth minPct) catalog oracle
      = bestFlips (mkFlipArgs (some l) q2 ls2 status mrep region depth minPct)
          catalog2 oracle := by
  have hemp : l.isEmpty = false := by
    cases l with
    | nil => exact absurd rfl hne
    | cons a t => rfl
  have hres : ∀ (qq : Option String) (lss : Option Int) (cat : List CatalogItem),
      resolveTargets (some l) qq lss cat = l := by
    intro qq lss cat
    show (if l.isEmpty = true then searchTargets qq lss cat else l) = l
    rw [hemp]
    simp
  refine ⟨hres q ls catalog, ?_⟩
  unfold bestFlips
  dsimp only [mkFlipArgs]
  rw [hres q ls catalog, hres q2 ls2 catalog2]

/-- Witness for C10 on a concrete singleton list. -/
theorem c10_explicit_list_ignores_search_witness :
    resolveTargets (some ["a"]) (some "zzz") (some 7) [] = ["a"]
    ∧ bestFlips (mkFlipArgs (some ["a"]) (some "zzz") (some 7) "any" none none none 0)
        [] cw3Oracle
      = bestFlips (mkFlipArgs (some ["a"]) none none "any" none none none 0)
          [{ item_name := some "Abc", url_name := "abc" }] cw3Oracle :=
  c10_explicit_list_ignores_search ["a"] (by decide) (some "zzz") none (some 7) none
    [] [{ item_name := some "Abc", url_name := "abc" }] "any" none none none 0 cw3Oracle

end Wfm
